import Mathlib

/-!
Shallow embedding of the client-side search subsystem of `script.js`
(slug generation, index building, query scoring/ranking, and term
highlighting), together with theorems checking the specification's
claims against it.

Strings are modelled as `List Char` (JavaScript strings are sequences of
code units; all inputs relevant here are ASCII, where code units and
code points coincide).  `String.prototype.toLowerCase` is modelled by
`Char.toLower` (the ASCII case mapping, which agrees with JavaScript on
the ASCII range).
-/

/-- Coerce a Lean string literal to the character-list representation used
throughout the development. -/
def str (s : String) : List Char := s.data

/-- Model of JavaScript `toLowerCase` applied to a string (ASCII case map,
applied character by character). -/
def lowerStr (s : List Char) : List Char := s.map Char.toLower

/-- The character class matched by the JavaScript regular-expression atom
`\s` (whitespace), used by `split(/\s+/)`, `replace(/\s+/g, ...)` and
`String.prototype.trim`. -/
def isSpaceJS (c : Char) : Bool :=
  c = ' ' || c = '\t' || c = '\n' || c = '\x0b' || c = '\x0c' || c = '\r' ||
  c = '\u00A0' || c = '\u1680' || ('\u2000' ≤ c && c ≤ '\u200A') ||
  c = '\u2028' || c = '\u2029' || c = '\u202F' || c = '\u205F' ||
  c = '\u3000' || c = '\uFEFF'

/-- The character class matched by the JavaScript regular-expression atom
`\w` (word character): ASCII letters, digits and underscore. -/
def isWordChar (c : Char) : Bool :=
  ('a' ≤ c && c ≤ 'z') || ('A' ≤ c && c ≤ 'Z') || ('0' ≤ c && c ≤ '9') || c = '_'

/-- `isPrefixL p l` holds when `p` is a prefix of `l`
(JavaScript `l.startsWith(p)`). -/
def isPrefixL : List Char → List Char → Bool
  | [], _ => true
  | _ :: _, [] => false
  | a :: as, b :: bs => a == b && isPrefixL as bs

/-- `containsL hay pat` holds when `pat` occurs contiguously inside `hay`
(JavaScript `hay.includes(pat)`). -/
def containsL : List Char → List Char → Bool
  | [], pat => isPrefixL pat []
  | c :: rest, pat => isPrefixL pat (c :: rest) || containsL rest pat

/-- Helper for `splitWords`: `cur` is the reversed current run of
non-whitespace characters. -/
def splitWordsAux (cur : List Char) : List Char → List (List Char)
  | [] => if cur = [] then [] else [cur.reverse]
  | c :: rest =>
    if isSpaceJS c then
      (if cur = [] then [] else [cur.reverse]) ++ splitWordsAux [] rest
    else splitWordsAux (c :: cur) rest

/-- The non-empty tokens produced by JavaScript `split(/\s+/)`: the maximal
runs of non-whitespace characters, in order.  (JavaScript `split(/\s+/)`
additionally yields an empty token at an end of the string that starts or
ends with whitespace; both call sites in the source immediately filter the
tokens by `w.length > 1`, which removes those empty tokens, so the
composition modelled here is faithful to the source.) -/
def splitWords (l : List Char) : List (List Char) := splitWordsAux [] l

/-- Model of `replace(/[^\w\s-]/g, '')`: strip every character that is not
a word character, whitespace, or a hyphen. -/
def stripNonSlug (l : List Char) : List Char :=
  l.filter (fun c => isWordChar c || isSpaceJS c || c == '-')

/-- Helper for `wsToHyphen`: `prevWS` records whether the previous input
character was whitespace (i.e. whether the current whitespace run has
already emitted its hyphen). -/
def wsToHyphenAux (prevWS : Bool) : List Char → List Char
  | [] => []
  | c :: rest =>
    if isSpaceJS c then
      (if prevWS then [] else ['-']) ++ wsToHyphenAux true rest
    else c :: wsToHyphenAux false rest

/-- Model of `replace(/\s+/g, '-')`: replace every maximal run of
whitespace with a single hyphen. -/
def wsToHyphen (l : List Char) : List Char := wsToHyphenAux false l

/-- Helper for `collapseHyphens`: `prevH` records whether the previous input
character was a hyphen. -/
def collapseHyphensAux (prevH : Bool) : List Char → List Char
  | [] => []
  | c :: rest =>
    if c = '-' then
      (if prevH then [] else ['-']) ++ collapseHyphensAux true rest
    else c :: collapseHyphensAux false rest

/-- Model of `replace(/[-]+/g, '-')`: collapse every maximal run of hyphens
to a single hyphen. -/
def collapseHyphens (l : List Char) : List Char := collapseHyphensAux false l

/-- Model of JavaScript `String.prototype.trim`: remove leading and trailing
whitespace. -/
def trimWS (l : List Char) : List Char :=
  ((l.dropWhile isSpaceJS).reverse.dropWhile isSpaceJS).reverse

/-- The slug chain applied to heading text in `buildSearchIndex`
(lines 503 and 523 of `script.js`):
`text.toLowerCase().replace(/[^\w\s-]/g, '').replace(/\s+/g, '-').replace(/[-]+/g, '-').trim()`.
Note the final step is `.trim()`, which removes *whitespace*. -/
def slugify (text : List Char) : List Char :=
  trimWS (collapseHyphens (wsToHyphen (stripNonSlug (lowerStr text))))

/-- Remove leading and trailing hyphens (used only to state what §4.1 of the
spec literally prescribes as the final step of the slug algorithm). -/
def trimHyphens (l : List Char) : List Char :=
  ((l.dropWhile (fun d => d == '-')).reverse.dropWhile (fun d => d == '-')).reverse

/-- The Slug Generator as the spec's §4.1 words describe it, for comparison
with `slugify`: identical pipeline except that the last step trims
leading/trailing *hyphens* rather than whitespace. -/
def slugifySpec (text : List Char) : List Char :=
  trimHyphens (collapseHyphens (wsToHyphen (stripNonSlug (lowerStr text))))

/-- The tag distinguishing index entries (`type` in the source), with the
heading tag name (`'h1'`..`'h4'`, the lower-cased `tagName`) attached to
heading entries, since scoring reads it only for headings. -/
inductive EntryKind where
  | heading (level : List Char)
  | content
deriving DecidableEq, Repr

/-- One element of `searchIndex` as pushed by `buildSearchIndex`. -/
structure SearchEntry where
  title : List Char
  id : List Char
  file : List Char
  kind : EntryKind
  content : List Char
deriving DecidableEq, Repr

/-- The additive score `performSearch` computes for one index entry
(lines 570-608 of `script.js`).  All contributions are non-negative, so
the JavaScript number is modelled as a `Nat`. -/
def scoreEntry (lowerQuery : List Char) (queryWords : List (List Char))
    (item : SearchEntry) : Nat :=
  let lowerTitle := lowerStr item.title
  let lowerContent := lowerStr item.content
  let s : Nat := 0
  let s := s + (if lowerTitle = lowerQuery then 100 else 0)
  let s := s + (if isPrefixL lowerQuery lowerTitle then 50 else 0)
  let s := s + (if containsL lowerTitle lowerQuery then 30 else 0)
  let s := s + (if containsL lowerContent lowerQuery then 20 else 0)
  let s := queryWords.foldl (fun acc word =>
    let acc := acc + (if containsL lowerTitle word then 10 else 0)
    acc + (if containsL lowerContent word then 5 else 0)) s
  match item.kind with
  | EntryKind.heading level =>
    s + 10 + (if level = str "h1" then 5 else 0) + (if level = str "h2" then 3 else 0)
  | EntryKind.content => s

/-- Stable insertion for `sortDesc`: the new element `p` passes over the
existing elements of strictly greater score and lands in front of the
first element whose score is less than or equal to its own.  Since
`sortDesc` inserts elements from last to first, an element never passes
one of equal score, so equal-score elements keep their original order. -/
def insertDesc (p : SearchEntry × Nat) :
    List (SearchEntry × Nat) → List (SearchEntry × Nat)
  | [] => [p]
  | q :: rest => if p.2 < q.2 then q :: insertDesc p rest else p :: q :: rest

/-- Model of `.sort((a, b) => b.score - a.score)`: JavaScript
`Array.prototype.sort` is required (ES2019) to be stable, and with this
comparator its result is the unique descending-by-score reordering that
keeps equal-score elements in their original relative order; `sortDesc`
is a stable insertion sort computing exactly that reordering. -/
def sortDesc : List (SearchEntry × Nat) → List (SearchEntry × Nat)
  | [] => []
  | p :: rest => insertDesc p (sortDesc rest)

/-- The per-entry scoring pass of `performSearch`
(`searchIndex.map(item => ({ ...item, score }))`), keeping the entry
paired with its score. -/
def scoredEntries (query : List Char) (searchIndex : List SearchEntry) :
    List (SearchEntry × Nat) :=
  searchIndex.map (fun item =>
    (item, scoreEntry (lowerStr query)
      ((splitWords (lowerStr query)).filter (fun w => 1 < w.length)) item))

/-- Model of `performSearch(query)` (lines 562-614 of `script.js`), with the
ambient `searchIndex` passed explicitly: guard on `query.length < 2`
(the raw, untrimmed length; `!query` is subsumed, the empty string being
the only falsy string), score every entry, keep strictly positive scores,
sort stably by descending score, and keep the first 10. -/
def performSearch (query : List Char) (searchIndex : List SearchEntry) :
    List (SearchEntry × Nat) :=
  if query.length < 2 then []
  else
    (sortDesc ((scoredEntries query searchIndex).filter (fun p => 0 < p.2))).take 10

/-- Characters that the JavaScript regular-expression engine treats
literally inside a pattern (no metacharacter role). -/
def regexLiteralChar (c : Char) : Bool :=
  !(c = '\\' || c = '^' || c = '$' || c = '.' || c = '|' || c = '?' ||
    c = '*' || c = '+' || c = '(' || c = ')' || c = '[' || c = ']' ||
    c = '\x7b' || c = '\x7d')

/-- One step of `highlightSearchTerms`: the effect of
`text.replace(new RegExp('(' + w + ')', 'gi'), '<mark>$1</mark>')` for a
word `w` of regex-literal characters (already lower-cased by the caller):
every case-insensitive occurrence of `w`, scanning left to right and
resuming after each match, is wrapped in `<mark>`..`</mark>` with the
original text (and its case) kept as the matched substring `$1`.  The
`fuel` argument (instantiated with `text.length` by `wrapWord`) only
makes the recursion structural. -/
def wrapWordAux (w : List Char) : Nat → List Char → List Char
  | _, [] => []
  | 0, text => text
  | fuel + 1, c :: rest =>
    if w ≠ [] && isPrefixL w (lowerStr (c :: rest)) then
      str "<mark>" ++ (c :: rest).take w.length ++ str "</mark>" ++
        wrapWordAux w fuel ((c :: rest).drop w.length)
    else c :: wrapWordAux w fuel rest

/-- All case-insensitive occurrences of the word `w` in `text` wrapped with
the emphasis marker. -/
def wrapWord (w : List Char) (text : List Char) : List Char :=
  wrapWordAux w text.length text

/-- Model of `highlightSearchTerms(text, query)` (lines 617-627 of
`script.js`).  The source interpolates each query word, unescaped, into
`new RegExp('(' + w + ')', 'gi')`; only words whose characters the regex
engine treats literally are modelled by `wrapWord`.  A word containing a
metacharacter makes the constructed pattern behave non-literally — and
`new RegExp` can throw a `SyntaxError` outright (e.g. the word `((` gives
the invalid pattern `((()`) — which the model reports as `Except.error`. -/
def highlightSearchTerms (text query : List Char) : Except Unit (List Char) :=
  let words := (splitWords (lowerStr query)).filter (fun w => 1 < w.length)
  words.foldlM (fun acc w =>
    if w.all regexLiteralChar then Except.ok (wrapWord w acc)
    else Except.error ()) text

/-- A rendered block-level node of a document, as `buildSearchIndex` sees it
in the flat sibling list of the rendered markdown (`tempDiv`'s children):
a heading `h1`..`h6` (selected ones are levels 1-4), a paragraph, or any
other block (code, list, ...), each carrying its `textContent`. -/
inductive Block where
  | heading (level : Nat) (text : List Char)
  | para (text : List Char)
  | other (text : List Char)
deriving DecidableEq, Repr

/-- The `textContent` of a block. -/
def blockText : Block → List Char
  | Block.heading _ t => t
  | Block.para t => t
  | Block.other t => t

/-- Whether a block matches the selector `'h1, h2, h3, h4'`. -/
def isHeading14 : Block → Bool
  | Block.heading level _ => 1 ≤ level && level ≤ 4
  | _ => false

/-- The lower-cased `tagName` of a heading level, e.g. `str "h2"`. -/
def tagOf (level : Nat) : List Char := 'h' :: (Nat.repr level).data

/-- Model of `findPreviousHeading(element)` (lines 543-552 of `script.js`):
walk the `previousElementSibling` chain — i.e. the blocks before the
element, from nearest to farthest — and return the first block matching
`'h1, h2, h3, h4'`, if any.  `prevRev` is that chain: the preceding
siblings in reverse document order. -/
def findPrevHeadingRev : List Block → Option Block
  | [] => none
  | b :: rest => if isHeading14 b then some b else findPrevHeadingRev rest

/-- `findPreviousHeading` applied to an element whose preceding siblings, in
document order, are `before`. -/
def findPreviousHeading (before : List Block) : Option Block :=
  findPrevHeadingRev before.reverse

/-- The fixed domain-keyword set of `hasKeywords` (lines 554-559). -/
def keywords : List (List Char) :=
  [str "const", str "let", str "fn", str "struct", str "enum", str "loop",
   str "if", str "return", str "alloc", str "free", str "defer", str "cast",
   str "sizeof", str "pub", str "priv"]

/-- Model of `hasKeywords(text)`: does the lower-cased text contain one of
the fixed keywords as a contiguous substring (JavaScript `includes`)? -/
def hasKeywords (text : List Char) : Bool :=
  keywords.any (fun kw => containsL (lowerStr text) kw)

/-- Model of `file.replace('.md', '')` (string pattern, so only the *first*
occurrence of `pat` in the string is removed). -/
def removeFirst (pat : List Char) : List Char → List Char
  | [] => []
  | c :: rest =>
    if isPrefixL pat (c :: rest) then (c :: rest).drop pat.length
    else c :: removeFirst pat rest

/-- The heading entries of one document (first `forEach` of
`buildSearchIndex`, lines 502-514): walk the headings matching
`'h1, h2, h3, h4'` in document order; `idx` is the running position in
that heading list; the anchor is the slug, or `'heading-' + idx` when the
slug is empty; the snippet is the next sibling's text truncated to 300
characters, or empty when the heading is the last block. -/
def headingEntries (file : List Char) : List Block → Nat → List SearchEntry
  | [], _ => []
  | b :: rest, idx =>
    match b with
    | Block.heading level text =>
      if 1 ≤ level && level ≤ 4 then
        { title := text
          id :=
            (let slug := slugify text
             if slug = [] then str "heading-" ++ (Nat.repr idx).data else slug)
          file := file
          kind := EntryKind.heading (tagOf level)
          content :=
            (match rest.head? with
             | some nb => (blockText nb).take 300
             | none => []) } :: headingEntries file rest (idx + 1)
      else headingEntries file rest idx
    | _ => headingEntries file rest idx

/-- The entry pushed for one qualifying paragraph (lines 520-527):
`prev` is `findPreviousHeading(p)`'s result and `r` the decimal string of
the `Math.random()` draw (consumed only when a preceding heading exists
and its slug is empty, `||` being short-circuiting). -/
def paraEntry (file : List Char) (prev : Option Block) (r : List Char)
    (text : List Char) : SearchEntry :=
  match prev with
  | some h =>
    { title := blockText h
      id :=
        (let slug := slugify (blockText h)
         if slug = [] then str "heading-" ++ r else slug)
      file := file
      kind := EntryKind.content
      content := text.take 300 }
  | none =>
    { title := removeFirst (str ".md") file
      id := []
      file := file
      kind := EntryKind.content
      content := text.take 300 }

/-- Whether the `Math.random()` draw is consumed for a paragraph whose
nearest preceding heading is `prev`. -/
def usesRandom (prev : Option Block) : Bool :=
  match prev with
  | some h => slugify (blockText h) = []
  | none => false

/-- The content entries of one document (second `forEach` of
`buildSearchIndex`, lines 517-529): walk every paragraph block in
document order; a paragraph qualifies when its text exceeds 100
characters or contains a domain keyword; `before` is the list of already
passed sibling blocks in document order, `rand` the oracle giving the
decimal string of the `k`-th `Math.random()` draw of the build.  Returns
the entries together with the updated draw counter. -/
def contentEntriesAux (file : List Char) (rand : Nat → List Char) :
    List Block → List Block → Nat → List SearchEntry × Nat
  | _, [], k => ([], k)
  | before, b :: rest, k =>
    match b with
    | Block.para text =>
      if 100 < text.length || hasKeywords text then
        (paraEntry file (findPreviousHeading before) (rand k) text ::
          (contentEntriesAux file rand (before ++ [b]) rest
            (if usesRandom (findPreviousHeading before) then k + 1 else k)).1,
         (contentEntriesAux file rand (before ++ [b]) rest
           (if usesRandom (findPreviousHeading before) then k + 1 else k)).2)
      else contentEntriesAux file rand (before ++ [b]) rest k
    | _ => contentEntriesAux file rand (before ++ [b]) rest k

/-- All entries contributed by one document: heading entries first, then
content entries, as the two successive `forEach` loops push them. -/
def indexDocument (file : List Char) (rand : Nat → List Char)
    (blocks : List Block) (k : Nat) : List SearchEntry × Nat :=
  (headingEntries file blocks 0 ++ (contentEntriesAux file rand [] blocks k).1,
   (contentEntriesAux file rand [] blocks k).2)

/-- The per-document loop of `buildSearchIndex` (lines 490-534): fetch and
render each file of the manifest in order; a failed fetch or a non-ok
response (`docs f = none`) skips that document and continues with the
rest. -/
def buildFrom (docs : List Char → Option (List Block)) (rand : Nat → List Char) :
    List (List Char) → Nat → List SearchEntry
  | [], _ => []
  | f :: rest, k =>
    match docs f with
    | none => buildFrom docs rand rest k
    | some blocks =>
      (indexDocument f rand blocks k).1 ++
        buildFrom docs rand rest (indexDocument f rand blocks k).2

/-- One manifest item: a bare file name, or a folder with its files
(`typeof item === 'string'` versus `item.files`). -/
inductive ManifestItem where
  | file (name : List Char)
  | folder (name : List Char) (files : List (List Char))
deriving DecidableEq, Repr

/-- The flattening of the manifest into `filesToIndex` (lines 481-488). -/
def filesToIndex (manifest : List ManifestItem) : List (List Char) :=
  (manifest.map (fun item =>
    match item with
    | ManifestItem.file f => [f]
    | ManifestItem.folder _ fs => fs)).flatten

/-- The module-level mutable search state: `searchIndex` and
`isSearchIndexBuilt` (lines 467-468). -/
structure SearchState where
  searchIndex : List SearchEntry
  isSearchIndexBuilt : Bool
deriving DecidableEq, Repr

/-- Model of one call to `buildSearchIndex()` (lines 471-541) as a state
transformer.  `fetchManifest` is the outcome of fetching and parsing
`manifest.json` (`none`: the fetch or parse threw, so the `catch` at line
538 runs — the index, already reset to `[]` at line 475, stays empty and
the built flag stays false).  If the state is already built the call
returns immediately; otherwise the index is rebuilt from scratch and the
flag is set once the loop over the files completes. -/
def buildSearchIndex (fetchManifest : Option (List ManifestItem))
    (docs : List Char → Option (List Block)) (rand : Nat → List Char)
    (st : SearchState) : SearchState :=
  if st.isSearchIndexBuilt then st
  else
    match fetchManifest with
    | none => { searchIndex := [], isSearchIndexBuilt := false }
    | some manifest =>
      { searchIndex := buildFrom docs rand (filesToIndex manifest) 0
        isSearchIndexBuilt := true }

/-! ## Helper lemmas -/

theorem dropWhile_eq_self_of (l : List Char)
    (h : ∀ c ∈ l, isSpaceJS c = false) : l.dropWhile isSpaceJS = l := by
  cases l with
  | nil => rfl
  | cons a rest =>
    simp [List.dropWhile_cons, h a (List.mem_cons_self a rest)]

theorem trimWS_eq_self (l : List Char)
    (h : ∀ c ∈ l, isSpaceJS c = false) : trimWS l = l := by
  unfold trimWS
  rw [dropWhile_eq_self_of l h, dropWhile_eq_self_of, List.reverse_reverse]
  intro c hc
  exact h c (List.mem_reverse.mp hc)

theorem wsToHyphenAux_not_space (l : List Char) :
    ∀ p : Bool, ∀ c ∈ wsToHyphenAux p l, isSpaceJS c = false := by
  induction l with
  | nil => intro p c hc; simp [wsToHyphenAux] at hc
  | cons a rest ih =>
    intro p c hc
    simp only [wsToHyphenAux] at hc
    cases ha : isSpaceJS a with
    | true =>
      rw [ha] at hc
      simp only [if_true] at hc
      rcases List.mem_append.mp hc with h1 | h2
      · cases p with
        | true => simp at h1
        | false =>
          simp at h1
          subst h1
          decide
      · exact ih true c h2
    | false =>
      rw [ha] at hc
      rw [if_neg (by simp)] at hc
      rcases List.mem_cons.mp hc with h1 | h2
      · subst h1; exact ha
      · exact ih false c h2

theorem collapseHyphensAux_mem (l : List Char) :
    ∀ p : Bool, ∀ c ∈ collapseHyphensAux p l, c = '-' ∨ c ∈ l := by
  induction l with
  | nil => intro p c hc; simp [collapseHyphensAux] at hc
  | cons a rest ih =>
    intro p c hc
    simp only [collapseHyphensAux] at hc
    by_cases ha : a = '-'
    · rw [if_pos ha] at hc
      rcases List.mem_append.mp hc with h1 | h2
      · cases p with
        | true => simp at h1
        | false => simp at h1; left; exact h1
      · rcases ih true c h2 with h3 | h3
        · left; exact h3
        · right; exact List.mem_cons_of_mem a h3
    · rw [if_neg ha] at hc
      rcases List.mem_cons.mp hc with h1 | h2
      · right; rw [h1]; exact List.mem_cons_self a rest
      · rcases ih false c h2 with h3 | h3
        · left; exact h3
        · right; exact List.mem_cons_of_mem a h3

/-! ## C2 — short-query guard -/

/-- C2 counterexample: the guard in `performSearch` tests the *raw* length of
the query, not its trimmed length.  The query `" a "` has trimmed length
1 — the claim says the result must be empty — yet against an index whose
single entry is titled `" a "` the search returns that entry (its title
equals, starts with and contains the lower-cased query: score 180). -/
theorem c2_counterexample :
    (trimWS (str " a ")).length < 2 ∧
    performSearch (str " a ")
      [{ title := str " a ", id := [], file := str "f.md",
         kind := EntryKind.content, content := [] }] ≠ [] := by
  exact ⟨by decide, by decide⟩

/-- C2 (amended): for every index and every query whose *raw* length is less
than 2 — the empty string or any single-character string —
`performSearch` returns the empty list.  (The spec's own fixtures
`search("") == []` and `search("a") == []` are instances.) -/
theorem c2_length_guard (query : List Char) (idx : List SearchEntry)
    (h : query.length < 2) : performSearch query idx = [] := by
  simp [performSearch, h]

theorem c2_length_guard_witness :
    performSearch (str "a") [] = [] ∧ performSearch [] [] = [] :=
  ⟨c2_length_guard (str "a") [] (by decide),
   c2_length_guard [] [] (by decide)⟩

/-! ## C3 — the slug chain -/

/-- C3 counterexample: the last step of the slug chain in the source is
`.trim()`, which strips *whitespace*, not hyphens — and at that point of
the chain no whitespace is left, so leading/trailing hyphens survive.
On `"-x"` the code produces `"-x"`, while the spec's literal algorithm
(`slugifySpec`, which ends by trimming hyphens) produces `"x"`. -/
theorem c3_counterexample :
    slugify (str "-x") = str "-x" ∧ slugifySpec (str "-x") = str "x" ∧
    slugify (str "-x") ≠ slugifySpec (str "-x") := by
  exact ⟨by decide, by decide, by decide⟩

/-- C3 (amended): the slug computation lowercases the text, strips every
character that is not a word character, whitespace or a hyphen, collapses
whitespace runs to a single hyphen and collapses hyphen runs to one; the
final `.trim()` removes leading/trailing *whitespace*, which is a no-op
at that stage (no whitespace survives the previous step), so leading and
trailing hyphens are *not* trimmed.  The two fixtures hold:
`slugify("Getting Started!") = "getting-started"` and
`slugify("???") = ""`. -/
theorem c3_slug_chain :
    (∀ text : List Char,
      slugify text = collapseHyphens (wsToHyphen (stripNonSlug (lowerStr text)))) ∧
    slugify (str "Getting Started!") = str "getting-started" ∧
    slugify (str "???") = [] := by
  refine ⟨fun text => ?_, by decide, by decide⟩
  unfold slugify
  apply trimWS_eq_self
  intro c hc
  rcases collapseHyphensAux_mem _ _ c hc with h1 | h1
  · subst h1; decide
  · exact wsToHyphenAux_not_space _ _ c h1

/-! ## C4 — totality of highlight -/

/-- C4: `highlightSearchTerms` wraps every case-insensitive occurrence of
each query word, preserving the original case (first conjunct, the
spec's fixture), but it is *not* total: each word is interpolated
unescaped into `new RegExp('(' + word + ')', 'gi')`, so the query `"(("`
makes the constructor throw a `SyntaxError` (pattern `((()` has
unterminated groups) — modelled by `Except.error`. -/
theorem c4_highlight_fixture_and_throw :
    highlightSearchTerms (str "Hello World") (str "wor") =
      Except.ok (str "Hello <mark>Wor</mark>ld") ∧
    highlightSearchTerms (str "hello") (str "((") = Except.error () :=
  ⟨rfl, rfl⟩

/-! ## C8 — case-insensitivity of search -/

/-- C8: `performSearch` is case-insensitive in the query: two queries with
the same lower-casing (e.g. `"INSTALL"` and `"install"`) give identical
ordered result lists against every index. -/
theorem c8_case_insensitive (q1 q2 : List Char) (idx : List SearchEntry)
    (h : lowerStr q1 = lowerStr q2) :
    performSearch q1 idx = performSearch q2 idx := by
  have hlen : q1.length = q2.length := by
    have h2 := congrArg List.length h
    simpa [lowerStr] using h2
  unfold performSearch scoredEntries
  rw [h, hlen]

theorem c8_case_insensitive_witness :
    performSearch (str "INSTALL")
      [{ title := str "Installation Guide", id := str "installation-guide",
         file := str "f.md", kind := EntryKind.heading (str "h1"),
         content := str "How to install." }] =
    performSearch (str "install")
      [{ title := str "Installation Guide", id := str "installation-guide",
         file := str "f.md", kind := EntryKind.heading (str "h1"),
         content := str "How to install." }] :=
  c8_case_insensitive (str "INSTALL") (str "install") _ (by decide)

/-! ## C10 — the keyword test is substring-based -/

theorem isPrefixL_iff (p : List Char) : ∀ l : List Char,
    isPrefixL p l = true ↔ p <+: l := by
  induction p with
  | nil => intro l; simp [isPrefixL]
  | cons a as ih =>
    intro l
    cases l with
    | nil => simp [isPrefixL]
    | cons b bs =>
      simp [isPrefixL, List.cons_prefix_cons, ih]

theorem containsL_iff (hay : List Char) : ∀ pat : List Char,
    containsL hay pat = true ↔ pat <:+: hay := by
  induction hay with
  | nil => intro pat; simp [containsL, isPrefixL_iff, List.infix_nil]
  | cons c rest ih =>
    intro pat
    simp [containsL, isPrefixL_iff, ih, List.infix_cons_iff]

/-- C10: `hasKeywords` is substring-based, not word-boundary-based: it is
true exactly when the lower-cased text contains one of the 15 fixed
keywords as a contiguous character sequence anywhere, including inside a
longer word.  In particular the 19-character paragraph
`"They are different."` (whose word `"different"` contains `"if"`)
qualifies and produces a `Content` entry despite having no more than 100
characters. -/
theorem c10_keywords_substring :
    (∀ text : List Char,
      hasKeywords text = true ↔ ∃ kw ∈ keywords, kw <:+: lowerStr text) ∧
    (str "if") <:+: lowerStr (str "They are different.") ∧
    ¬ 100 < (str "They are different.").length ∧
    (contentEntriesAux (str "f.md") (fun _ => []) []
        [Block.para (str "They are different.")] 0).1 =
      [{ title := str "f", id := [], file := str "f.md",
         kind := EntryKind.content, content := str "They are different." }] := by
  refine ⟨fun text => ?_, ?_, by decide, by decide⟩
  · simp [hasKeywords, List.any_eq_true, containsL_iff]
  · rw [← containsL_iff]
    decide

/-! ## C6 — idempotence of the build -/

/-- C6: a call to `buildSearchIndex` from an unbuilt state with a
successfully fetched manifest sets the built flag and fills the index
from the manifest's files; every subsequent call — with the same or any
other manifest, fetch outcomes or random draws — is a no-op that returns
the state exactly as the first call produced it. -/
theorem c6_idempotent (manifest : List ManifestItem)
    (docs : List Char → Option (List Block)) (rand : Nat → List Char)
    (st : SearchState) (h : st.isSearchIndexBuilt = false) :
    (buildSearchIndex (some manifest) docs rand st).isSearchIndexBuilt = true ∧
    (buildSearchIndex (some manifest) docs rand st).searchIndex =
      buildFrom docs rand (filesToIndex manifest) 0 ∧
    (∀ fm2 docs2 rand2,
      buildSearchIndex fm2 docs2 rand2 (buildSearchIndex (some manifest) docs rand st) =
        buildSearchIndex (some manifest) docs rand st) := by
  refine ⟨by simp [buildSearchIndex, h], by simp [buildSearchIndex, h], ?_⟩
  intro fm2 docs2 rand2
  have hb : (buildSearchIndex (some manifest) docs rand st).isSearchIndexBuilt = true := by
    simp [buildSearchIndex, h]
  generalize hst : buildSearchIndex (some manifest) docs rand st = st1 at hb ⊢
  unfold buildSearchIndex
  rw [if_pos hb]

theorem c6_idempotent_witness :
    (buildSearchIndex (some []) (fun _ => none) (fun _ => [])
      { searchIndex := [], isSearchIndexBuilt := false }).isSearchIndexBuilt = true ∧
    (buildSearchIndex (some []) (fun _ => none) (fun _ => [])
      { searchIndex := [], isSearchIndexBuilt := false }).searchIndex =
      buildFrom (fun _ => none) (fun _ => []) (filesToIndex []) 0 ∧
    (∀ fm2 docs2 rand2,
      buildSearchIndex fm2 docs2 rand2
          (buildSearchIndex (some []) (fun _ => none) (fun _ => [])
            { searchIndex := [], isSearchIndexBuilt := false }) =
        buildSearchIndex (some []) (fun _ => none) (fun _ => [])
          { searchIndex := [], isSearchIndexBuilt := false }) :=
  c6_idempotent [] (fun _ => none) (fun _ => [])
    { searchIndex := [], isSearchIndexBuilt := false } rfl

/-! ## C7 — individual fetch failures are not fatal -/

/-- C7: a document whose fetch fails or returns a non-ok response
(`docs f = none`) is skipped: it contributes no entries, and the build
over the rest of the manifest — before and after it, in order — is
exactly the build over the file list with that document removed. -/
theorem c7_skip_failed (docs : List Char → Option (List Block))
    (rand : Nat → List Char) (pre post : List (List Char)) (f : List Char)
    (k : Nat) (hf : docs f = none) :
    buildFrom docs rand (pre ++ f :: post) k =
      buildFrom docs rand (pre ++ post) k := by
  induction pre generalizing k with
  | nil => simp [buildFrom, hf]
  | cons g rest ih =>
    simp only [List.cons_append, buildFrom]
    cases hg : docs g with
    | none => exact ih k
    | some blocks =>
      dsimp only
      simp only [List.append_eq]
      rw [ih]

theorem c7_skip_failed_witness :
    buildFrom (fun f => if f = str "ok.md" then some [Block.heading 1 (str "A")] else none)
        (fun _ => []) [str "ok.md", str "missing.md", str "ok.md"] 0 =
      buildFrom (fun f => if f = str "ok.md" then some [Block.heading 1 (str "A")] else none)
        (fun _ => []) [str "ok.md", str "ok.md"] 0 :=
  c7_skip_failed (fun f => if f = str "ok.md" then some [Block.heading 1 (str "A")] else none)
    (fun _ => []) [str "ok.md"] [str "ok.md"] (str "missing.md") 0 (by decide)

/-! ## C9 — heading anchors are non-empty -/

theorem headingEntries_id_ne_nil (file : List Char) : ∀ (blocks : List Block)
    (idx : Nat), ∀ e ∈ headingEntries file blocks idx, e.id ≠ [] := by
  intro blocks
  induction blocks with
  | nil => intro idx e he; simp [headingEntries] at he
  | cons b rest ih =>
    intro idx e he
    cases b with
    | heading level text =>
      simp only [headingEntries] at he
      by_cases hl : (1 ≤ level && level ≤ 4) = true
      · rw [if_pos hl] at he
        rcases List.mem_cons.mp he with h1 | h2
        · subst h1
          by_cases hs : slugify text = []
          · simp [hs, str]
          · simp [hs]
        · exact ih _ e h2
      · rw [if_neg hl] at he
        exact ih _ e he
    | para text =>
      simp only [headingEntries] at he
      exact ih _ e he
    | other text =>
      simp only [headingEntries] at he
      exact ih _ e he

theorem contentEntriesAux_kind (file : List Char) (rand : Nat → List Char) :
    ∀ (blocks before : List Block) (k : Nat),
    ∀ e ∈ (contentEntriesAux file rand before blocks k).1,
      e.kind = EntryKind.content := by
  intro blocks
  induction blocks with
  | nil => intro before k e he; simp [contentEntriesAux] at he
  | cons b rest ih =>
    intro before k e he
    cases b with
    | para text =>
      simp only [contentEntriesAux] at he
      by_cases hq : (100 < text.length || hasKeywords text) = true
      · rw [if_pos hq] at he
        dsimp only at he
        rcases List.mem_cons.mp he with h1 | h1
        · subst h1
          cases hp : findPreviousHeading before with
          | none => simp [paraEntry, hp]
          | some h => simp [paraEntry, hp]
        · exact ih _ _ e h1
      · rw [if_neg hq] at he
        exact ih _ _ e he
    | heading level text =>
      simp only [contentEntriesAux] at he
      exact ih _ _ e he
    | other text =>
      simp only [contentEntriesAux] at he
      exact ih _ _ e he

theorem buildFrom_heading_id (docs : List Char → Option (List Block))
    (rand : Nat → List Char) : ∀ (files : List (List Char)) (k : Nat)
    (e : SearchEntry), e ∈ buildFrom docs rand files k →
    ∀ lvl : List Char, e.kind = EntryKind.heading lvl → e.id ≠ [] := by
  intro files
  induction files with
  | nil => intro k e he; simp [buildFrom] at he
  | cons f rest ih =>
    intro k e he lvl hk
    simp only [buildFrom] at he
    cases hd : docs f with
    | none =>
      rw [hd] at he
      exact ih k e he lvl hk
    | some blocks =>
      rw [hd] at he
      dsimp only at he
      rcases List.mem_append.mp he with h1 | h2
      · simp only [indexDocument] at h1
        rcases List.mem_append.mp h1 with hh | hc
        · exact headingEntries_id_ne_nil f blocks 0 e hh
        · have hkind := contentEntriesAux_kind f rand blocks [] k e hc
          rw [hk] at hkind
          cases hkind
      · exact ih _ e h2 lvl hk

/-- C9: every `Heading` entry of a built index has a non-empty `anchorId`
(first conjunct, over every fetch outcome, random oracle, file list and
starting draw counter), and the anchor is assigned in the same build pass
using the positional fallback `'heading-' + ordinal` when the slug of the
heading text is empty — witnessed by the heading `"???"`, whose entry
gets `id = "heading-0"` (second conjunct). -/
theorem c9_heading_anchor_nonempty :
    (∀ (docs : List Char → Option (List Block)) (rand : Nat → List Char)
       (files : List (List Char)) (k : Nat) (e : SearchEntry),
      e ∈ buildFrom docs rand files k →
      ∀ lvl : List Char, e.kind = EntryKind.heading lvl → e.id ≠ []) ∧
    headingEntries (str "d.md") [Block.heading 2 (str "???")] 0 =
      [{ title := str "???", id := str "heading-0", file := str "d.md",
         kind := EntryKind.heading (str "h2"), content := [] }] := by
  refine ⟨fun docs rand files k e he lvl hk =>
    buildFrom_heading_id docs rand files k e he lvl hk, by decide⟩

/-! ## C5 — paragraph entries inherit title/anchor from the preceding heading -/

/-- C5 counterexample: when the nearest preceding heading's slug is *empty*,
the paragraph's `anchorId` is **not** the heading entry's `anchorId`: the
heading entry got the positional fallback (`"heading-0"`), while the
paragraph entry gets `'heading-' + Math.random()` (here the draw renders
as `"0.5"`, giving `"heading-0.5"`).  Concretely, the document
`[h2 "???", p "Use the if keyword here."]` builds an index whose two
entries carry different anchors. -/
theorem c5_counterexample :
    buildFrom
        (fun f => if f = str "d.md" then
          some [Block.heading 2 (str "???"),
                Block.para (str "Use the if keyword here.")] else none)
        (fun _ => str "0.5") [str "d.md"] 0 =
      [{ title := str "???", id := str "heading-0", file := str "d.md",
         kind := EntryKind.heading (str "h2"),
         content := str "Use the if keyword here." },
       { title := str "???", id := str "heading-0.5", file := str "d.md",
         kind := EntryKind.content,
         content := str "Use the if keyword here." }] ∧
    str "heading-0.5" ≠ str "heading-0" := by
  exact ⟨by decide, by decide⟩

/-- C5 (amended): a qualifying paragraph emits the entry
`paraEntry file (findPreviousHeading before) (rand k) text` where
`before` is the list of preceding sibling blocks (first conjunct); if a
heading precedes, the entry's title is that heading's text and its
anchorId is the heading's (non-empty) slug — equal to the heading entry's
anchorId — while for an *empty* slug the anchorId is `'heading-'`
followed by the random draw, which need not match the heading entry's
positional fallback (second conjunct); with no preceding heading, the
title falls back to the file name with its first `".md"` occurrence
removed and the anchorId is empty (third conjunct). -/
theorem c5_para_inheritance :
    (∀ (file : List Char) (rand : Nat → List Char) (before after : List Block)
       (text : List Char) (k : Nat),
      (100 < text.length || hasKeywords text) = true →
      ∃ rest : List SearchEntry,
        (contentEntriesAux file rand before (Block.para text :: after) k).1 =
          paraEntry file (findPreviousHeading before) (rand k) text :: rest) ∧
    (∀ (file r text : List Char) (lvl : Nat) (htext : List Char),
      (paraEntry file (some (Block.heading lvl htext)) r text).title = htext ∧
      (slugify htext ≠ [] →
        (paraEntry file (some (Block.heading lvl htext)) r text).id = slugify htext) ∧
      (slugify htext = [] →
        (paraEntry file (some (Block.heading lvl htext)) r text).id =
          str "heading-" ++ r)) ∧
    (∀ file r text : List Char,
      (paraEntry file none r text).title = removeFirst (str ".md") file ∧
      (paraEntry file none r text).id = []) := by
  refine ⟨?_, ?_, ?_⟩
  · intro file rand before after text k hq
    refine ⟨(contentEntriesAux file rand (before ++ [Block.para text]) after
      (if usesRandom (findPreviousHeading before) then k + 1 else k)).1, ?_⟩
    simp only [contentEntriesAux]
    rw [if_pos hq]
  · intro file r text lvl htext
    refine ⟨rfl, fun hs => ?_, fun hs => ?_⟩
    · simp [paraEntry, blockText, hs]
    · simp [paraEntry, blockText, hs]
  · intro file r text
    exact ⟨rfl, rfl⟩

/-! ## C1 — ranking: positive scores, descending stable order, top 10 -/

theorem insertDesc_perm (p : SearchEntry × Nat) :
    ∀ l : List (SearchEntry × Nat), (insertDesc p l).Perm (p :: l) := by
  intro l
  induction l with
  | nil => exact List.Perm.refl _
  | cons q rest ih =>
    by_cases hlt : p.2 < q.2
    · rw [insertDesc, if_pos hlt]
      exact (ih.cons q).trans (List.Perm.swap p q rest)
    · rw [insertDesc, if_neg hlt]

theorem insertDesc_sorted (p : SearchEntry × Nat) :
    ∀ l : List (SearchEntry × Nat), l.Pairwise (fun a b => b.2 ≤ a.2) →
      (insertDesc p l).Pairwise (fun a b => b.2 ≤ a.2) := by
  intro l
  induction l with
  | nil => intro _; simp [insertDesc]
  | cons q rest ih =>
    intro h
    rcases List.pairwise_cons.mp h with ⟨hq, hrest⟩
    by_cases hlt : p.2 < q.2
    · rw [insertDesc, if_pos hlt]
      refine List.pairwise_cons.mpr ⟨?_, ih hrest⟩
      intro b hb
      have hmem : b ∈ p :: rest := (insertDesc_perm p rest).subset hb
      rcases List.mem_cons.mp hmem with h1 | h1
      · subst h1; omega
      · exact hq b h1
    · rw [insertDesc, if_neg hlt]
      refine List.pairwise_cons.mpr ⟨?_, h⟩
      intro b hb
      rcases List.mem_cons.mp hb with h1 | h1
      · subst h1; omega
      · have := hq b h1; omega

theorem insertDesc_filter (p : SearchEntry × Nat) (s : Nat) :
    ∀ l : List (SearchEntry × Nat),
      (insertDesc p l).filter (fun q => q.2 == s) =
        if p.2 = s then p :: l.filter (fun q => q.2 == s)
        else l.filter (fun q => q.2 == s) := by
  intro l
  induction l with
  | nil =>
    rw [insertDesc]
    by_cases hp : p.2 = s
    · rw [if_pos hp]; simp [List.filter_cons, hp]
    · rw [if_neg hp]; simp [List.filter_cons, hp]
  | cons q rest ih =>
    by_cases hlt : p.2 < q.2
    · rw [insertDesc, if_pos hlt, List.filter_cons, ih]
      by_cases hp : p.2 = s
      · have hq : ¬ q.2 = s := by omega
        simp [hp, hq, List.filter_cons]
      · by_cases hq : q.2 = s
        · simp [hp, hq, List.filter_cons]
        · simp [hp, hq, List.filter_cons]
    · rw [insertDesc, if_neg hlt]
      by_cases hp : p.2 = s
      · rw [if_pos hp]
        simp [List.filter_cons, hp]
      · rw [if_neg hp]
        simp [List.filter_cons, hp]

theorem sortDesc_perm : ∀ l : List (SearchEntry × Nat), (sortDesc l).Perm l := by
  intro l
  induction l with
  | nil => exact List.Perm.refl _
  | cons p rest ih => exact (insertDesc_perm p (sortDesc rest)).trans (ih.cons p)

theorem sortDesc_sorted : ∀ l : List (SearchEntry × Nat),
    (sortDesc l).Pairwise (fun a b => b.2 ≤ a.2) := by
  intro l
  induction l with
  | nil => simp [sortDesc]
  | cons p rest ih => exact insertDesc_sorted p (sortDesc rest) ih

theorem sortDesc_filter (s : Nat) : ∀ l : List (SearchEntry × Nat),
    (sortDesc l).filter (fun q => q.2 == s) = l.filter (fun q => q.2 == s) := by
  intro l
  induction l with
  | nil => rfl
  | cons p rest ih =>
    rw [sortDesc, insertDesc_filter, ih, List.filter_cons]
    by_cases hp : p.2 = s
    · simp [hp]
    · simp [hp]

/-- C1 counterexample: the claim as stated quantifies over *every* query,
but a query of length 1 short-circuits the guard: against an index whose
single entry is titled `"a"`, the entry's additive score for the query
`"a"` is strictly positive (its scored-and-filtered list is non-empty),
yet `performSearch` returns the empty list instead of that entry. -/
theorem c1_counterexample :
    (scoredEntries (str "a")
        [{ title := str "a", id := [], file := str "f.md",
           kind := EntryKind.content, content := [] }]).filter
      (fun p => 0 < p.2) ≠ [] ∧
    performSearch (str "a")
      [{ title := str "a", id := [], file := str "f.md",
         kind := EntryKind.content, content := [] }] = [] := by
  exact ⟨by decide, by decide⟩

/-- C1 (amended): for every query of (raw) length at least 2 and every
index, the result of `performSearch` is the 10-element (or shorter)
prefix of a list that (i) is a permutation of the scored index entries
with strictly positive score — taken in index order, so the result
consists exactly of positive-score entries up to the truncation — (ii) is
sorted by descending score, and (iii) keeps entries of equal score in
the same relative order as in the built index (its filtration at each
score value equals that of the score-filtered index, which lists index
entries in their original order). -/
theorem c1_ranking (query : List Char) (idx : List SearchEntry)
    (h : 2 ≤ query.length) :
    ∃ sorted : List (SearchEntry × Nat),
      sorted.Perm ((scoredEntries query idx).filter (fun p => 0 < p.2)) ∧
      sorted.Pairwise (fun a b => b.2 ≤ a.2) ∧
      (∀ s : Nat, sorted.filter (fun q => q.2 == s) =
        ((scoredEntries query idx).filter (fun p => 0 < p.2)).filter
          (fun q => q.2 == s)) ∧
      performSearch query idx = sorted.take 10 := by
  refine ⟨sortDesc ((scoredEntries query idx).filter (fun p => 0 < p.2)),
    sortDesc_perm _, sortDesc_sorted _, fun s => sortDesc_filter s _, ?_⟩
  rw [performSearch, if_neg (by omega)]

theorem c1_ranking_witness :
    ∃ sorted : List (SearchEntry × Nat),
      sorted.Perm ((scoredEntries (str "install")
        [{ title := str "Installation Guide", id := str "installation-guide",
           file := str "f.md", kind := EntryKind.heading (str "h1"),
           content := str "How to install." }]).filter (fun p => 0 < p.2)) ∧
      sorted.Pairwise (fun a b => b.2 ≤ a.2) ∧
      (∀ s : Nat, sorted.filter (fun q => q.2 == s) =
        ((scoredEntries (str "install")
          [{ title := str "Installation Guide", id := str "installation-guide",
             file := str "f.md", kind := EntryKind.heading (str "h1"),
             content := str "How to install." }]).filter (fun p => 0 < p.2)).filter
          (fun q => q.2 == s)) ∧
      performSearch (str "install")
        [{ title := str "Installation Guide", id := str "installation-guide",
           file := str "f.md", kind := EntryKind.heading (str "h1"),
           content := str "How to install." }] = sorted.take 10 :=
  c1_ranking (str "install") _ (by decide)
